import Mathlib

/-!
Shallow embedding of the matching engine of `backend/ai/matcher.py`
(class `MatchingEngine`). Python dictionaries with optional keys become
structures with `Option` fields (`none` = key absent); floats become real
numbers; the external sentence-transformer model held in `self.model`
becomes an explicit parameter `enc : String → List ℝ` (the embedding
provider, an external capability the engine consumes). Stateful code
(`rank_opportunities` writes `match_score` into the input records) is
modelled by explicit state passing: the function returns both the final
state of the input records and its result.
-/

namespace Matcher

/-- Opportunity record as consumed by the engine: one `Option` field per key
of the Python dict that `matcher.py` reads, `none` when the key is absent. -/
structure Opportunity where
  title : Option String := none
  company : Option String := none
  type : Option String := none
  location : Option String := none
  remote : Option Bool := none
  description : Option String := none
  requirements : Option (List String) := none
  skills : Option (List String) := none
  compensation : Option String := none
  is_still_open : Option Bool := none
  match_score : Option ℝ := none

/-- Raw user data map passed to `create_user_profile`; each recognized key is
optional (`none` = key absent, the documented default applies). -/
structure UserData where
  skills : Option (List String) := none
  interests : Option (List String) := none
  education : Option String := none
  experience : Option ℤ := none
  locations : Option (List String) := none
  types : Option (List String) := none
  remote_only : Option Bool := none
  companies : Option (List String) := none
  salary_min : Option ℚ := none
  keywords : Option (List String) := none

/-- Structured user profile as built by `MatchingEngine.create_user_profile`:
the ten always-present keys, plus the four keys the builder adds only
conditionally (modelled as `Option`, `none` = key absent). -/
structure Profile where
  skills : List String
  interests : List String
  education_level : String
  experience_years : ℤ
  preferred_locations : List String
  preferred_types : List String
  remote_only : Bool
  target_companies : List String
  salary_min : ℚ
  keywords : List String
  skills_text : Option String := none
  skills_embedding : Option (List ℝ) := none
  interests_text : Option String := none
  interests_embedding : Option (List ℝ) := none

/-- Python `str.lower()` as the per-character ASCII case map (all strings the
engine compares are ASCII). -/
def strLower (s : String) : String := ⟨s.data.map Char.toLower⟩

/-- Python `needle in hay` on character lists: `true` iff `needle` occurs as a
contiguous substring of `hay` (the empty needle always matches). -/
def containsChars (needle : List Char) : List Char → Bool
  | [] => needle.isEmpty
  | c :: rest => needle.isPrefixOf (c :: rest) || containsChars needle rest

/-- Python `needle in hay` for strings. -/
def pyIn (needle hay : String) : Bool := containsChars needle.data hay.data

/-- Python `x or default` for an optional string: `None` (absent key) and the
empty string are falsy and yield the default. -/
def pyOrStr (x : Option String) (d : String) : String :=
  match x with
  | none => d
  | some s => if s = "" then d else s

/-- Python truthiness of `opportunity.get(key)` for a Bool-valued key:
truthy iff the key is present and `True`. -/
def truthy (b : Option Bool) : Bool := b.getD false

/-- `MatchingEngine.create_user_profile` (matcher.py lines 32-64): normalize
the raw user map with the documented defaults, and add the text/embedding
keys exactly when the corresponding source list is non-empty (Python
truthiness of `profile['skills']` / `profile['interests']`). -/
def create_user_profile (enc : String → List ℝ) (ud : UserData) : Profile :=
  let skills := ud.skills.getD []
  let interests := ud.interests.getD []
  { skills := skills
    interests := interests
    education_level := ud.education.getD "bachelor"
    experience_years := ud.experience.getD 0
    preferred_locations := ud.locations.getD []
    preferred_types := ud.types.getD ["job", "internship"]
    remote_only := ud.remote_only.getD false
    target_companies := ud.companies.getD []
    salary_min := ud.salary_min.getD 0
    keywords := ud.keywords.getD []
    skills_text := if skills = [] then none else some (String.intercalate ", " skills)
    skills_embedding := if skills = [] then none else some (enc (String.intercalate ", " skills))
    interests_text := if interests = [] then none else some (String.intercalate ", " interests)
    interests_embedding :=
      if interests = [] then none else some (enc (String.intercalate ", " interests)) }

/-- `np.dot` on two 1-D vectors: sum of pointwise products. -/
noncomputable def dotList (v1 v2 : List ℝ) : ℝ :=
  (List.zipWith (fun a b => a * b) v1 v2).sum

/-- `np.linalg.norm`: the L2 norm, square root of the sum of squares. -/
noncomputable def l2norm (v : List ℝ) : ℝ :=
  Real.sqrt ((v.map fun x => x ^ 2).sum)

/-- `MatchingEngine._cosine_similarity` (lines 137-139): dot product divided
by the product of the L2 norms (division by zero yields 0 in this model,
matching the observable `max(0, nan)` = 0 outcome of the Python code on a
zero-norm vector). -/
noncomputable def cosine_similarity (v1 v2 : List ℝ) : ℝ :=
  dotList v1 v2 / (l2norm v1 * l2norm v2)

/-- `MatchingEngine._match_location` (lines 141-159). -/
noncomputable def match_location (opp : Opportunity) (p : Profile) : ℝ :=
  if p.remote_only && truthy opp.remote then 100
  else
    let opp_location := strLower (opp.location.getD "")
    let preferred := p.preferred_locations.map strLower
    if preferred.any (fun pr => pyIn pr opp_location) then 100
    else if truthy opp.remote then 70
    else 0

/-- `MatchingEngine._match_type` (lines 161-166). -/
noncomputable def match_type (opp : Opportunity) (p : Profile) : ℝ :=
  let opp_type := strLower (pyOrStr opp.type "job")
  if opp_type ∈ p.preferred_types then 100 else 0

/-- `MatchingEngine._match_experience` (lines 168-188). -/
noncomputable def match_experience (opp : Opportunity) (p : Profile) : ℝ :=
  let description := strLower (opp.description.getD "")
  let requirements := strLower (String.intercalate " " (opp.requirements.getD []))
  let combined := description ++ " " ++ requirements
  if ["entry level", "junior", "internship", "graduate"].any (fun w => pyIn w combined) then
    if p.experience_years ≤ 2 then 100 else 50
  else if ["mid level", "2-5 years", "3+ years"].any (fun w => pyIn w combined) then
    if 2 ≤ p.experience_years ∧ p.experience_years ≤ 5 then 100 else 50
  else if ["senior", "5+ years", "lead", "principal"].any (fun w => pyIn w combined) then
    if 5 ≤ p.experience_years then 100 else 30
  else 50

/-- `MatchingEngine._match_company` (lines 190-202). -/
noncomputable def match_company (opp : Opportunity) (p : Profile) : ℝ :=
  if p.target_companies = [] then 50
  else
    let opp_company := strLower (opp.company.getD "")
    if (p.target_companies.map strLower).any (fun t => pyIn t opp_company) then 100 else 0

/-- `MatchingEngine._match_keywords` (lines 204-221). -/
noncomputable def match_keywords (opp : Opportunity) (p : Profile) : ℝ :=
  if p.keywords = [] then 50
  else
    let opp_text := strLower (String.intercalate " "
      [opp.title.getD "", opp.description.getD "", String.intercalate " " (opp.skills.getD [])])
    let keywords := p.keywords.map strLower
    let matched := keywords.countP (fun kw => pyIn kw opp_text)
    if keywords = [] then 50
    else ((matched : ℝ) / (keywords.length : ℝ)) * 100

/-- The guard of the skill-similarity branch (line 89): Python truthiness of
`opportunity.get('skills')` (present and non-empty) and
`user_profile.get('skills_embedding') is not None`. -/
def skill_applicable (opp : Opportunity) (p : Profile) : Bool :=
  !(opp.skills.getD []).isEmpty && p.skills_embedding.isSome

/-- The skill-similarity factor score (lines 90-99): embed the joined
opportunity skills, take cosine similarity with the profile embedding, scale
by 100 and floor negatives at 0. -/
noncomputable def skill_raw_score (enc : String → List ℝ) (opp : Opportunity) (p : Profile) : ℝ :=
  let opp_skills_text := String.intercalate ", " (opp.skills.getD [])
  let opp_embedding := enc opp_skills_text
  let similarity := cosine_similarity opp_embedding (p.skills_embedding.getD [])
  max 0 (similarity * 100)

/-- The `scores` list built by `calculate_match_score` (lines 85-126): the
skill score is appended only when its branch applies, the other five factor
scores always. -/
noncomputable def scores_list (enc : String → List ℝ) (opp : Opportunity) (p : Profile) :
    List ℝ :=
  (if skill_applicable opp p then [skill_raw_score enc opp p] else []) ++
    [match_location opp p, match_type opp p, match_experience opp p,
     match_company opp p, match_keywords opp p]

/-- The `weights` list built by `calculate_match_score` (lines 85-126). -/
noncomputable def weights_list (opp : Opportunity) (p : Profile) : List ℝ :=
  (if skill_applicable opp p then [0.40] else []) ++ [0.20, 0.15, 0.10, 0.10, 0.05]

/-- Line 129: `total_score = sum(s * w for s, w in zip(scores, weights))`. -/
noncomputable def pre_modifier_total (enc : String → List ℝ) (opp : Opportunity) (p : Profile) :
    ℝ :=
  (List.zipWith (fun s w => s * w) (scores_list enc opp p) (weights_list opp p)).sum

/-- `MatchingEngine._apply_modifiers` (lines 223-240): halve the score when
`is_still_open` (default `True`) is false; the compensation check only
executes `pass`, so both of its branches leave the score unchanged. -/
noncomputable def apply_modifiers (base_score : ℝ) (opp : Opportunity) (p : Profile) : ℝ :=
  let score := if opp.is_still_open.getD true then base_score else base_score * 0.5
  if opp.compensation.getD "" ≠ "" ∧ p.salary_min ≠ 0 then score else score

/-- `MatchingEngine.calculate_match_score` (lines 66-135): weighted sum,
modifiers, then the final clamp `max(0, min(100, total_score))`. -/
noncomputable def calculate_match_score (enc : String → List ℝ) (opp : Opportunity)
    (p : Profile) : ℝ :=
  max 0 (min 100 (apply_modifiers (pre_modifier_total enc opp p) opp p))

/-- The sort relation of `rank_opportunities`:
`sorted(..., key=lambda x: x['match_score'], reverse=True)` lets `a` stand
before `b` exactly when the key of `b` is at most the key of `a`; with this
relation a stable insertion sort reproduces the stable descending sort of
Python exactly. -/
def rankRel (a b : Opportunity) : Prop :=
  b.match_score.getD 0 ≤ a.match_score.getD 0

noncomputable instance : DecidableRel rankRel := fun _ _ => Real.decidableLE _ _

/-- Line 257: `opp['match_score'] = self.calculate_match_score(opp, user_profile)`,
the in-place update of one input record. -/
noncomputable def add_match_score (enc : String → List ℝ) (p : Profile)
    (opp : Opportunity) : Opportunity :=
  { opp with match_score := some (calculate_match_score enc opp p) }

/-- `MatchingEngine.rank_opportunities` (lines 242-264) with the mutation of
the input records made explicit. The first component is the final state of
the input list (every record got `match_score` written into it, in input
order); the second is the returned value: `none` models the `IndexError`
raised by `ranked[0]['match_score']` in the log f-string when the list is
empty, otherwise the stably sorted (descending) list of the updated records
is returned. -/
noncomputable def rank_opportunities (enc : String → List ℝ) (opps : List Opportunity)
    (p : Profile) : List Opportunity × Option (List Opportunity) :=
  let scored := opps.map (add_match_score enc p)
  let ranked := List.insertionSort rankRel scored
  (scored,
    match ranked with
    | [] => none
    | _ :: _ => some ranked)

/-- Python `l[:n]`: for `n ≥ 0` the first `n` elements, for negative `n` all
but the last `-n` elements. -/
def pySliceTo (n : ℤ) (l : List α) : List α :=
  if 0 ≤ n then l.take n.toNat else l.take ((l.length : ℤ) + n).toNat

/-- `MatchingEngine.filter_opportunities` (lines 266-284): keep the records
whose `match_score` (0 when absent) is at least `min_score`, then truncate
with Python slice semantics. The source performs no validation of
`min_score` or `max_results` and cannot fail. -/
noncomputable def filter_opportunities (opps : List Opportunity) (min_score : ℝ)
    (max_results : ℤ) : List Opportunity :=
  pySliceTo max_results (opps.filter fun o => decide (min_score ≤ o.match_score.getD 0))

/-- The Filter operation as the specification words it (spec section 6:
`filter(ranked, min_score, max_results)` fails with InvalidInput if
`min_score` is outside `[0,100]` or `max_results < 0`), written here only to
be compared with `filter_opportunities`, the definition taken from the
source. -/
noncomputable def filter_opportunities_specced (opps : List Opportunity) (min_score : ℝ)
    (max_results : ℤ) : Except String (List Opportunity) :=
  if min_score < 0 ∨ 100 < min_score ∨ max_results < 0 then Except.error "InvalidInput"
  else Except.ok
    (pySliceTo max_results (opps.filter fun o => decide (min_score ≤ o.match_score.getD 0)))

/-! Bounds of the six factor scorers and of the aggregate. -/

theorem sum_sq_nonneg (v : List ℝ) : 0 ≤ (v.map fun x => x ^ 2).sum := by
  apply List.sum_nonneg
  intro x hx
  obtain ⟨y, _, rfl⟩ := List.mem_map.mp hx
  positivity

theorem l2norm_nonneg (v : List ℝ) : 0 ≤ l2norm v := Real.sqrt_nonneg _

theorem sq_l2norm (v : List ℝ) : l2norm v ^ 2 = (v.map fun x => x ^ 2).sum :=
  Real.sq_sqrt (sum_sq_nonneg v)

theorem cons_norm_key (a b x y : ℝ) :
    a * b + x * y ≤ Real.sqrt (a ^ 2 + x ^ 2) * Real.sqrt (b ^ 2 + y ^ 2) := by
  have h1 : (a * b + x * y) ^ 2 ≤ (a ^ 2 + x ^ 2) * (b ^ 2 + y ^ 2) := by
    nlinarith [sq_nonneg (a * y - b * x)]
  have h2 : a * b + x * y ≤ |a * b + x * y| := le_abs_self _
  have h3 : |a * b + x * y| = Real.sqrt ((a * b + x * y) ^ 2) :=
    (Real.sqrt_sq_eq_abs _).symm
  have h4 : Real.sqrt ((a * b + x * y) ^ 2) ≤ Real.sqrt ((a ^ 2 + x ^ 2) * (b ^ 2 + y ^ 2)) :=
    Real.sqrt_le_sqrt h1
  have h5 : Real.sqrt ((a ^ 2 + x ^ 2) * (b ^ 2 + y ^ 2)) =
      Real.sqrt (a ^ 2 + x ^ 2) * Real.sqrt (b ^ 2 + y ^ 2) :=
    Real.sqrt_mul (by positivity) _
  linarith

theorem dotList_le (v1 v2 : List ℝ) : dotList v1 v2 ≤ l2norm v1 * l2norm v2 := by
  induction v1 generalizing v2 with
  | nil =>
    have : dotList [] v2 = 0 := by simp [dotList]
    rw [this]
    exact mul_nonneg (l2norm_nonneg _) (l2norm_nonneg _)
  | cons a t ih =>
    cases v2 with
    | nil =>
      have : dotList (a :: t) [] = 0 := by simp [dotList]
      rw [this]
      exact mul_nonneg (l2norm_nonneg _) (l2norm_nonneg _)
    | cons b t2 =>
      have hx : l2norm t ^ 2 = (t.map fun x => x ^ 2).sum := sq_l2norm t
      have hy : l2norm t2 ^ 2 = (t2.map fun x => x ^ 2).sum := sq_l2norm t2
      have hkey := cons_norm_key a b (l2norm t) (l2norm t2)
      have hL1 : l2norm (a :: t) = Real.sqrt (a ^ 2 + l2norm t ^ 2) := by
        rw [hx]; simp [l2norm]
      have hL2 : l2norm (b :: t2) = Real.sqrt (b ^ 2 + l2norm t2 ^ 2) := by
        rw [hy]; simp [l2norm]
      have hdot : dotList (a :: t) (b :: t2) = a * b + dotList t t2 := by
        simp [dotList]
      rw [hdot, hL1, hL2]
      have := ih t2
      linarith

theorem cosine_similarity_le_one (v1 v2 : List ℝ) : cosine_similarity v1 v2 ≤ 1 := by
  unfold cosine_similarity
  rcases eq_or_lt_of_le (mul_nonneg (l2norm_nonneg v1) (l2norm_nonneg v2)) with h | h
  · rw [← h, div_zero]
    norm_num
  · exact (div_le_one h).mpr (dotList_le v1 v2)

theorem skill_raw_score_nonneg (enc : String → List ℝ) (opp : Opportunity) (p : Profile) :
    0 ≤ skill_raw_score enc opp p := le_max_left _ _

theorem skill_raw_score_le (enc : String → List ℝ) (opp : Opportunity) (p : Profile) :
    skill_raw_score enc opp p ≤ 100 := by
  unfold skill_raw_score
  apply max_le (by norm_num)
  have h := cosine_similarity_le_one (enc (String.intercalate ", " (opp.skills.getD [])))
    (p.skills_embedding.getD [])
  nlinarith

theorem ite_bounds_h {c : Prop} [Decidable c] {x y : ℝ}
    (hx : c → 0 ≤ x ∧ x ≤ 100) (hy : ¬c → 0 ≤ y ∧ y ≤ 100) :
    0 ≤ (if c then x else y) ∧ (if c then x else y) ≤ 100 := by
  split_ifs with h
  exacts [hx h, hy h]

theorem match_location_bounds (opp : Opportunity) (p : Profile) :
    0 ≤ match_location opp p ∧ match_location opp p ≤ 100 := by
  unfold match_location
  exact ite_bounds_h (fun _ => by norm_num)
    (fun _ => ite_bounds_h (fun _ => by norm_num)
      (fun _ => ite_bounds_h (fun _ => by norm_num) (fun _ => by norm_num)))

theorem match_type_bounds (opp : Opportunity) (p : Profile) :
    0 ≤ match_type opp p ∧ match_type opp p ≤ 100 := by
  unfold match_type
  exact ite_bounds_h (fun _ => by norm_num) (fun _ => by norm_num)

theorem match_experience_bounds (opp : Opportunity) (p : Profile) :
    0 ≤ match_experience opp p ∧ match_experience opp p ≤ 100 := by
  unfold match_experience
  exact ite_bounds_h
    (fun _ => ite_bounds_h (fun _ => by norm_num) (fun _ => by norm_num))
    (fun _ => ite_bounds_h
      (fun _ => ite_bounds_h (fun _ => by norm_num) (fun _ => by norm_num))
      (fun _ => ite_bounds_h
        (fun _ => ite_bounds_h (fun _ => by norm_num) (fun _ => by norm_num))
        (fun _ => by norm_num)))

theorem match_company_bounds (opp : Opportunity) (p : Profile) :
    0 ≤ match_company opp p ∧ match_company opp p ≤ 100 := by
  unfold match_company
  exact ite_bounds_h (fun _ => by norm_num)
    (fun _ => ite_bounds_h (fun _ => by norm_num) (fun _ => by norm_num))

theorem countP_div_bounds (l : List String) (f : String → Bool) (h : ¬l = []) :
    0 ≤ ((l.countP f : ℝ) / (l.length : ℝ)) * 100 ∧
      ((l.countP f : ℝ) / (l.length : ℝ)) * 100 ≤ 100 := by
  have hlen : 0 < l.length := List.length_pos.mpr h
  have hl : (0 : ℝ) < (l.length : ℝ) := by exact_mod_cast hlen
  have hc : ((l.countP f : ℝ)) ≤ ((l.length : ℝ)) := by
    exact_mod_cast List.countP_le_length f
  have hd : (l.countP f : ℝ) / (l.length : ℝ) ≤ 1 := (div_le_one hl).mpr hc
  have hd0 : 0 ≤ (l.countP f : ℝ) / (l.length : ℝ) := by positivity
  constructor <;> nlinarith

theorem match_keywords_bounds (opp : Opportunity) (p : Profile) :
    0 ≤ match_keywords opp p ∧ match_keywords opp p ≤ 100 := by
  unfold match_keywords
  exact ite_bounds_h (fun _ => by norm_num)
    (fun _ => ite_bounds_h (fun _ => by norm_num)
      (fun h2 => countP_div_bounds _ _ h2))

theorem pre_modifier_total_eq (enc : String → List ℝ) (opp : Opportunity) (p : Profile) :
    pre_modifier_total enc opp p =
      (if skill_applicable opp p then 0.40 * skill_raw_score enc opp p else 0) +
        (0.20 * match_location opp p + 0.15 * match_type opp p +
          0.10 * match_experience opp p + 0.10 * match_company opp p +
          0.05 * match_keywords opp p) := by
  unfold pre_modifier_total scores_list weights_list
  cases h : skill_applicable opp p <;> simp [h] <;> ring

theorem pre_modifier_total_nonneg (enc : String → List ℝ) (opp : Opportunity) (p : Profile) :
    0 ≤ pre_modifier_total enc opp p := by
  rw [pre_modifier_total_eq]
  have h1 := match_location_bounds opp p
  have h2 := match_type_bounds opp p
  have h3 := match_experience_bounds opp p
  have h4 := match_company_bounds opp p
  have h5 := match_keywords_bounds opp p
  have h6 := skill_raw_score_nonneg enc opp p
  split_ifs <;> nlinarith

theorem pre_modifier_total_le (enc : String → List ℝ) (opp : Opportunity) (p : Profile) :
    pre_modifier_total enc opp p ≤ (if skill_applicable opp p then (100 : ℝ) else 60) := by
  rw [pre_modifier_total_eq]
  have h1 := match_location_bounds opp p
  have h2 := match_type_bounds opp p
  have h3 := match_experience_bounds opp p
  have h4 := match_company_bounds opp p
  have h5 := match_keywords_bounds opp p
  have h6 := skill_raw_score_le enc opp p
  split_ifs <;> nlinarith

/-- `_apply_modifiers` in closed form: the only modifier with an effect is the
halving for a closed opportunity; the compensation check executes `pass` in
both branches. -/
theorem apply_modifiers_eq (base : ℝ) (opp : Opportunity) (p : Profile) :
    apply_modifiers base opp p =
      if opp.is_still_open.getD true then base else base * 0.5 := by
  unfold apply_modifiers
  split_ifs <;> rfl

theorem calculate_match_score_nonneg (enc : String → List ℝ) (opp : Opportunity)
    (p : Profile) : 0 ≤ calculate_match_score enc opp p := le_max_left _ _

theorem calculate_match_score_le (enc : String → List ℝ) (opp : Opportunity)
    (p : Profile) : calculate_match_score enc opp p ≤ 100 :=
  max_le (by norm_num) (min_le_left _ _)

/-! Sample inputs used by the witness and counterexample theorems. -/

/-- A stub embedding provider (never consulted on the sample inputs used
below, which carry no skills). -/
noncomputable def encZero : String → List ℝ := fun _ => []

/-- An opportunity record with every key absent. -/
def opp0 : Opportunity := {}

/-- An opportunity record that is marked closed and has no other key. -/
def oppClosed : Opportunity := { is_still_open := some false }

/-- An opportunity record already carrying a match score of 90. -/
def oppScored : Opportunity := { match_score := some 90 }

/-- The profile built from an empty user-data map. -/
noncomputable def profile0 : Profile := create_user_profile encZero {}

/-- Claim C1: for every opportunity record and every profile produced by
`create_user_profile`, the score is a total function of its inputs (the
model has no failure case) with value in `[0, 100]`; moreover the
skill-similarity branch itself (cosine similarity scaled to 0-100 with
negatives floored) always stays in `[0, 100]`, so it never pushes the
computation out of range. -/
theorem score_total_and_in_range (enc : String → List ℝ) (ud : UserData)
    (opp : Opportunity) :
    0 ≤ calculate_match_score enc opp (create_user_profile enc ud) ∧
      calculate_match_score enc opp (create_user_profile enc ud) ≤ 100 ∧
      0 ≤ skill_raw_score enc opp (create_user_profile enc ud) ∧
      skill_raw_score enc opp (create_user_profile enc ud) ≤ 100 :=
  ⟨calculate_match_score_nonneg enc opp _, calculate_match_score_le enc opp _,
    skill_raw_score_nonneg enc opp _, skill_raw_score_le enc opp _⟩

/-- Claim C2: the aggregate before modifiers is the weighted sum of the
included factor scores with the fixed weights 0.40/0.20/0.15/0.10/0.10/0.05;
the skill factor is included iff the opportunity has a non-empty skills list
and the profile has a skills embedding; when it is omitted the weights used
sum to 0.60 with no renormalization, and the pre-modifier aggregate is then
at most 60 (policy (a)). -/
theorem aggregate_weighted_sum_policy_a (enc : String → List ℝ) (opp : Opportunity)
    (p : Profile) :
    pre_modifier_total enc opp p =
      (if skill_applicable opp p then 0.40 * skill_raw_score enc opp p else 0) +
        (0.20 * match_location opp p + 0.15 * match_type opp p +
          0.10 * match_experience opp p + 0.10 * match_company opp p +
          0.05 * match_keywords opp p) ∧
      (skill_applicable opp p = true ↔
        (opp.skills.getD [] ≠ [] ∧ p.skills_embedding.isSome = true)) ∧
      (weights_list opp p).sum = (if skill_applicable opp p then 1 else 0.60) ∧
      pre_modifier_total enc opp p ≤ (if skill_applicable opp p then (100 : ℝ) else 60) := by
  refine ⟨pre_modifier_total_eq enc opp p, ?_, ?_, pre_modifier_total_le enc opp p⟩
  · simp [skill_applicable, List.isEmpty_iff]
  · unfold weights_list
    cases h : skill_applicable opp p <;> simp [h] <;> norm_num

/-- Claim C7: for a closed opportunity the final score is exactly half the
pre-modifier weighted aggregate that the same opportunity marked open would
receive: the 0.5 factor is applied once, after weighting and before the
clamp (which is the identity there), and the compensation-vs-salary check
never alters the score. -/
theorem closed_halves_pre_clamp (enc : String → List ℝ) (opp : Opportunity) (p : Profile)
    (h : opp.is_still_open = some false) :
    calculate_match_score enc opp p =
      0.5 * pre_modifier_total enc { opp with is_still_open := some true } p ∧
      (∀ (base : ℝ) (c : Option String),
        apply_modifiers base { opp with compensation := c } p =
          apply_modifiers base opp p) := by
  have hpre : pre_modifier_total enc { opp with is_still_open := some true } p =
      pre_modifier_total enc opp p := rfl
  constructor
  · rw [hpre]
    unfold calculate_match_score
    rw [apply_modifiers_eq, h]
    have h0 := pre_modifier_total_nonneg enc opp p
    have h1 := pre_modifier_total_le enc opp p
    have h1' : pre_modifier_total enc opp p ≤ 100 := by
      split_ifs at h1 <;> linarith
    simp only [Option.getD_some, Bool.false_eq_true, if_false]
    rw [min_eq_right (by nlinarith), max_eq_right (by nlinarith)]
    ring
  · intro base c
    rw [apply_modifiers_eq, apply_modifiers_eq]

/-- Witness for C7 at a concrete closed opportunity and the default-built
profile. -/
theorem closed_halves_pre_clamp_witness :
    oppClosed.is_still_open = some false ∧
      (calculate_match_score encZero oppClosed profile0 =
        0.5 * pre_modifier_total encZero { oppClosed with is_still_open := some true } profile0 ∧
        (∀ (base : ℝ) (c : Option String),
          apply_modifiers base { oppClosed with compensation := c } profile0 =
            apply_modifiers base oppClosed profile0)) :=
  ⟨rfl, closed_halves_pre_clamp encZero oppClosed profile0 rfl⟩

/-! Stability and sortedness of the ranking sort. A stable sort is uniquely
determined by its input, so the stable insertion sort used in the model
reproduces the stable descending Python `sorted` exactly; stability is
expressed as: for every score value `s`, filtering the output on score `s`
yields exactly the same list as filtering the input. -/

theorem filter_orderedInsert_eq_key (s : ℝ) (a : Opportunity) (l : List Opportunity)
    (ha : a.match_score.getD 0 = s) :
    (List.orderedInsert rankRel a l).filter (fun o => decide (o.match_score.getD 0 = s)) =
      a :: l.filter (fun o => decide (o.match_score.getD 0 = s)) := by
  induction l with
  | nil => simp [List.orderedInsert, ha]
  | cons b t ih =>
    by_cases hr : rankRel a b
    · rw [List.orderedInsert_of_le _ _ hr]
      simp [List.filter, ha]
    · have hins : List.orderedInsert rankRel a (b :: t) =
          b :: List.orderedInsert rankRel a t := by
        simp [List.orderedInsert, hr]
      have hbs : ¬ b.match_score.getD 0 = s := by
        intro hb
        exact hr (by unfold rankRel; rw [hb, ha])
      rw [hins]
      simp [List.filter, hbs, ih]

theorem filter_orderedInsert_ne_key (s : ℝ) (a : Opportunity) (l : List Opportunity)
    (ha : ¬ a.match_score.getD 0 = s) :
    (List.orderedInsert rankRel a l).filter (fun o => decide (o.match_score.getD 0 = s)) =
      l.filter (fun o => decide (o.match_score.getD 0 = s)) := by
  induction l with
  | nil => simp [List.orderedInsert, ha]
  | cons b t ih =>
    by_cases hr : rankRel a b
    · rw [List.orderedInsert_of_le _ _ hr]
      simp [List.filter, ha]
    · have hins : List.orderedInsert rankRel a (b :: t) =
          b :: List.orderedInsert rankRel a t := by
        simp [List.orderedInsert, hr]
      rw [hins]
      simp [List.filter, ih]

theorem filter_insertionSort_key (s : ℝ) (l : List Opportunity) :
    (List.insertionSort rankRel l).filter (fun o => decide (o.match_score.getD 0 = s)) =
      l.filter (fun o => decide (o.match_score.getD 0 = s)) := by
  induction l with
  | nil => rfl
  | cons a t ih =>
    show (List.orderedInsert rankRel a (List.insertionSort rankRel t)).filter _ = _
    by_cases ha : a.match_score.getD 0 = s
    · rw [filter_orderedInsert_eq_key s a _ ha, ih]
      simp [List.filter, ha]
    · rw [filter_orderedInsert_ne_key s a _ ha, ih]
      simp [List.filter, ha]

theorem sorted_insertionSort_rankRel (l : List Opportunity) :
    List.Sorted rankRel (List.insertionSort rankRel l) := by
  haveI : IsTotal Opportunity rankRel := ⟨fun a b => le_total _ _⟩
  haveI : IsTrans Opportunity rankRel := ⟨fun _ _ _ hab hbc => le_trans hbc hab⟩
  exact List.sorted_insertionSort rankRel l

/-- Claim C3: whenever rank returns a list, that list is sorted
non-increasingly by match score, and the sort is stable: for every score
value, the records carrying that score appear in the output in exactly the
order they have in the (scored) input. -/
theorem rank_sorted_and_stable (enc : String → List ℝ) (opps : List Opportunity)
    (p : Profile) (ranked : List Opportunity)
    (h : (rank_opportunities enc opps p).2 = some ranked) :
    List.Sorted rankRel ranked ∧
      ∀ s : ℝ, ranked.filter (fun o => decide (o.match_score.getD 0 = s)) =
        ((rank_opportunities enc opps p).1).filter
          (fun o => decide (o.match_score.getD 0 = s)) := by
  have hr : ranked = List.insertionSort rankRel (opps.map (add_match_score enc p)) := by
    have h2 : (match List.insertionSort rankRel (opps.map (add_match_score enc p)) with
        | [] => (none : Option (List Opportunity))
        | _ :: _ => some (List.insertionSort rankRel (opps.map (add_match_score enc p)))) =
        some ranked := h
    rcases hs : List.insertionSort rankRel (opps.map (add_match_score enc p)) with _ | ⟨a, t⟩ <;>
      rw [hs] at h2 <;> simp at h2
    exact h2.symm
  have hst : (rank_opportunities enc opps p).1 = opps.map (add_match_score enc p) := rfl
  constructor
  · rw [hr]
    exact sorted_insertionSort_rankRel _
  · intro s
    rw [hr, hst]
    exact filter_insertionSort_key s _

/-- Witness for C3 on a concrete one-element list. -/
theorem rank_sorted_and_stable_witness :
    (rank_opportunities encZero [opp0] profile0).2 =
        some [add_match_score encZero profile0 opp0] ∧
      (List.Sorted rankRel [add_match_score encZero profile0 opp0] ∧
        ∀ s : ℝ,
          ([add_match_score encZero profile0 opp0].filter
            (fun o => decide (o.match_score.getD 0 = s))) =
          ((rank_opportunities encZero [opp0] profile0).1).filter
            (fun o => decide (o.match_score.getD 0 = s))) :=
  ⟨by simp [rank_opportunities, List.insertionSort, List.orderedInsert],
    rank_sorted_and_stable encZero [opp0] profile0 _
      (by simp [rank_opportunities, List.insertionSort, List.orderedInsert])⟩

/-- Claim C4 counterexample: ranking a record that carries no `match_score`
changes that input record (the score is written into it), so the final state
of the input list differs from the input list. -/
theorem rank_mutates_input_counterexample :
    (rank_opportunities encZero [opp0] profile0).1 ≠ [opp0] := by
  intro h
  simp [rank_opportunities, add_match_score, opp0] at h

/-- Claim C4 (amended): rank writes `match_score` into every input record
(the inputs are mutated in place); every other field of every record is
unchanged, and the attached value is exactly the computed score. -/
theorem rank_mutates_only_score (enc : String → List ℝ) (opps : List Opportunity)
    (p : Profile) :
    (rank_opportunities enc opps p).1 = opps.map (add_match_score enc p) ∧
      (∀ o : Opportunity, (add_match_score enc p o).match_score =
        some (calculate_match_score enc o p)) ∧
      (∀ o : Opportunity,
        ({ add_match_score enc p o with match_score := o.match_score } : Opportunity) = o) :=
  ⟨rfl, fun _ => rfl, fun _ => rfl⟩

/-- Claim C5: the ranking of an empty opportunity list does not return
normally: the model yields `none`, the image of the `IndexError` raised by
`ranked[0]['match_score']` in the completion log line of
`rank_opportunities`. -/
theorem rank_empty_raises : (rank_opportunities encZero [] profile0).2 = none := rfl

/-- Claim C6 counterexample: at the out-of-range threshold `min_score = -5`
the source filter returns normally (here it keeps the whole list) where the
claim demands an InvalidInput failure; the spec-worded variant indeed
fails. -/
theorem filter_no_validation_counterexample :
    filter_opportunities [oppScored] (-5) 5 = [oppScored] ∧
      filter_opportunities_specced [oppScored] (-5) 5 = Except.error "InvalidInput" := by
  constructor
  · norm_num [filter_opportunities, pySliceTo, oppScored]
  · norm_num [filter_opportunities_specced]

/-- Claim C6 (amended): the source filter validates nothing and never fails;
for `max_results ≥ 0` it returns, in rank order (a sublist of the input),
exactly the records whose score (0 when absent) is at least `min_score`,
inclusive, truncated to at most `max_results` items; any `min_score`,
in range or not, is accepted. -/
theorem filter_threshold_truncate (opps : List Opportunity) (ms : ℝ) (mr : ℤ)
    (h : 0 ≤ mr) :
    filter_opportunities opps ms mr =
        (opps.filter fun o => decide (ms ≤ o.match_score.getD 0)).take mr.toNat ∧
      (∀ o ∈ filter_opportunities opps ms mr, ms ≤ o.match_score.getD 0) ∧
      (filter_opportunities opps ms mr).length ≤ mr.toNat ∧
      (filter_opportunities opps ms mr).Sublist opps := by
  have he : filter_opportunities opps ms mr =
      (opps.filter fun o => decide (ms ≤ o.match_score.getD 0)).take mr.toNat := by
    unfold filter_opportunities pySliceTo
    rw [if_pos h]
  refine ⟨he, ?_, ?_, ?_⟩
  · intro o ho
    rw [he] at ho
    have hof := List.mem_of_mem_take ho
    exact of_decide_eq_true (List.mem_filter.mp hof).2
  · rw [he]
    exact le_trans (List.length_take_le _ _) (le_refl _)
  · rw [he]
    exact (List.take_sublist _ _).trans (List.filter_sublist _)

/-- Witness for the amended C6 at concrete in-range parameters. -/
theorem filter_threshold_truncate_witness :
    (0 : ℤ) ≤ 5 ∧
      (filter_opportunities [oppScored] 0 5 =
          ([oppScored].filter fun o => decide ((0 : ℝ) ≤ o.match_score.getD 0)).take (5 : ℤ).toNat ∧
        (∀ o ∈ filter_opportunities [oppScored] 0 5, (0 : ℝ) ≤ o.match_score.getD 0) ∧
        (filter_opportunities [oppScored] 0 5).length ≤ (5 : ℤ).toNat ∧
        (filter_opportunities [oppScored] 0 5).Sublist [oppScored]) :=
  ⟨by norm_num, filter_threshold_truncate [oppScored] 0 5 (by norm_num)⟩

/-- Claim C10 counterexample: with `min_score = 0` a record lacking
`match_score` passes the threshold but is still cut by the `max_results`
truncation, so it is not retained in the returned list. -/
theorem filter_missing_score_counterexample :
    filter_opportunities [oppScored, opp0] 0 1 = [oppScored] ∧
      opp0 ∉ filter_opportunities [oppScored, opp0] 0 1 := by
  have h : filter_opportunities [oppScored, opp0] 0 1 = [oppScored] := by
    norm_num [filter_opportunities, pySliceTo, oppScored, opp0, List.filter]
  refine ⟨h, ?_⟩
  rw [h]
  intro hmem
  rw [List.mem_singleton] at hmem
  simp [opp0, oppScored] at hmem

/-- Claim C10 (amended): the filter treats a record without `match_score` as
having score 0: for `min_score > 0` such a record is never in the result;
for `min_score = 0` it passes the threshold filter (and so is retained
whenever the truncation leaves it in). -/
theorem filter_missing_score_as_zero (o : Opportunity) (ho : o.match_score = none)
    (opps : List Opportunity) (ms : ℝ) (mr : ℤ) :
    (0 < ms → o ∉ filter_opportunities opps ms mr) ∧
      (ms = 0 → o ∈ opps →
        o ∈ opps.filter fun x => decide (ms ≤ x.match_score.getD 0)) := by
  constructor
  · intro hms hmem
    have hsub : (filter_opportunities opps ms mr).Sublist
        (opps.filter fun x => decide (ms ≤ x.match_score.getD 0)) := by
      unfold filter_opportunities pySliceTo
      split_ifs <;> exact List.take_sublist _ _
    have hmem2 := hsub.subset hmem
    have hle := of_decide_eq_true (List.mem_filter.mp hmem2).2
    rw [ho] at hle
    simp only [Option.getD_none] at hle
    linarith
  · intro hms hin
    rw [List.mem_filter]
    refine ⟨hin, ?_⟩
    rw [ho, hms]
    simp

/-- Witness for the amended C10 at a concrete record with no score. -/
theorem filter_missing_score_as_zero_witness :
    opp0.match_score = none ∧
      ((0 < (1 : ℝ) → opp0 ∉ filter_opportunities [opp0] 1 5) ∧
        ((1 : ℝ) = 0 → opp0 ∈ [opp0] →
          opp0 ∈ [opp0].filter fun x => decide ((1 : ℝ) ≤ x.match_score.getD 0))) :=
  ⟨rfl, filter_missing_score_as_zero opp0 rfl [opp0] 1 5⟩

/-- The executable Python-style substring test agrees with list infix
containment. -/
theorem containsChars_iff (n h : List Char) : containsChars n h = true ↔ n <:+: h := by
  induction h with
  | nil =>
    simp [containsChars, List.isEmpty_iff]
  | cons c t ih =>
    rw [containsChars, Bool.or_eq_true, List.isPrefixOf_iff_prefix, ih,
      List.infix_cons_iff]

theorem pyIn_iff (n h : String) : pyIn n h = true ↔ n.data <:+: h.data :=
  containsChars_iff n.data h.data

/-- Claim C8: the location factor is the ordered chain of checks of
`_match_location`: 100 on the remote-only shortcut, else 100 when some
lower-cased preferred location occurs as a substring of the lower-cased
opportunity location (absent location read as the empty string), else 70
for a remote opportunity, else 0; the boolean loop condition is exactly
substring containment over the preferred locations. -/
theorem location_factor_ordered_checks (opp : Opportunity) (p : Profile) :
    match_location opp p =
      (if p.remote_only && truthy opp.remote then (100 : ℝ)
       else if (p.preferred_locations.map strLower).any
           (fun pr => pyIn pr (strLower (opp.location.getD ""))) then 100
       else if truthy opp.remote then 70
       else 0) ∧
      ((p.preferred_locations.map strLower).any
          (fun pr => pyIn pr (strLower (opp.location.getD ""))) = true ↔
        ∃ pr ∈ p.preferred_locations,
          (strLower pr).data <:+: (strLower (opp.location.getD "")).data) := by
  constructor
  · rfl
  · rw [List.any_eq_true]
    constructor
    · rintro ⟨x, hx, hpy⟩
      obtain ⟨y, hy, rfl⟩ := List.mem_map.mp hx
      exact ⟨y, hy, (pyIn_iff _ _).mp hpy⟩
    · rintro ⟨y, hy, hinf⟩
      exact ⟨strLower y, List.mem_map_of_mem _ hy, (pyIn_iff _ _).mpr hinf⟩

/-- Claim C9: in every profile built by `create_user_profile`, the skills
embedding is present iff the skills list is non-empty, and the interests
embedding is present iff the interests list is non-empty. -/
theorem profile_embedding_invariant (enc : String → List ℝ) (ud : UserData) :
    ((create_user_profile enc ud).skills_embedding ≠ none ↔
      (create_user_profile enc ud).skills ≠ []) ∧
      ((create_user_profile enc ud).interests_embedding ≠ none ↔
        (create_user_profile enc ud).interests ≠ []) := by
  unfold create_user_profile
  constructor <;> dsimp only <;> split_ifs with h <;> simp [h]

end Matcher
